import Mathlib

/-!
Shallow embedding of the `conrod_graph_widget` session/reconciliation engine
(`src/lib.rs`), covering the per-frame diff, the drag-to-event translation,
the type-indexed widget-identifier pool, socket-anchor geometry, and the
event-draining stage.

Conventions of the embedding:
* Rust `Scalar` (`f64`) is modelled as `ℚ` so that the arithmetic of the
  geometry and drag accumulation is exact; `Point = [Scalar; 2]` becomes a
  pair.
* `HashMap` values are modelled as functions (`NI → Option β`), or as total
  functions with a default value where the source uses
  `entry(..).or_insert_with(Default::default)`.
* `widget::Id` and `TypeId` are modelled as `ℕ`; the host's
  `widget::id::Generator` (which hands out fresh ids monotonically) is a
  `ℕ` counter: `next` returns the counter and increments it.
* `VecDeque` (the event queue) is a `List`, pushed at the back and popped at
  the front.
-/

namespace ConrodGraph

/-- Rust `conrod::Scalar` (`f64`), modelled exactly. -/
abbrev Scalar := ℚ

/-- Rust `conrod::Point` = `[Scalar; 2]`. -/
abbrev Point := Scalar × Scalar

/-- Rust `conrod::position::Range { start, end }`.  `end` is a Lean keyword, so
the field is named `stop`. -/
structure Range where
  start : Scalar
  stop : Scalar
deriving DecidableEq

/-- Rust `conrod::position::Rect { x: Range, y: Range }`. -/
structure Rect where
  x : Range
  y : Range
deriving DecidableEq

/-- Rust `conrod::position::Range::from_pos_and_len(pos, len)`:
the range centred at `pos` with length `len`. -/
def Range.from_pos_and_len (pos len : Scalar) : Range :=
  { start := pos - len / 2, stop := pos + len / 2 }

/-- Rust `conrod::position::Rect::from_xy_dim(xy, dim)`. -/
def Rect.from_xy_dim (xy : Point) (dim : Point) : Rect :=
  { x := Range.from_pos_and_len xy.1 dim.1
    y := Range.from_pos_and_len xy.2 dim.2 }

/-- Rust `conrod::position::Direction` (the two variants used by socket layout). -/
inductive Direction
  | Forwards
  | Backwards
deriving DecidableEq

/-- Rust `SocketSide` from `src/lib.rs`: the side of a node widget's bounding
rectangle. -/
inductive SocketSide
  | Left
  | Right
  | Top
  | Bottom
deriving DecidableEq

/-- Rust `SocketLayout` from `src/lib.rs`. -/
structure SocketLayout where
  side : SocketSide
  direction : Direction
deriving DecidableEq

/-- Rust `SocketLayouts` from `src/lib.rs`: input and output layouts. -/
structure SocketLayouts where
  input : SocketLayout
  output : SocketLayout
deriving DecidableEq

/-- Rust `const SOCKET_PADDING: Scalar = 10.0;` from `Edge::straight_line`. -/
def SOCKET_PADDING : Scalar := 10

/-- Rust `const PAD: Scalar = SOCKET_PADDING / 2.0;` from `Edge::straight_line`. -/
def PAD : Scalar := SOCKET_PADDING / 2

/-- Rust `range_scalar` from `Edge::straight_line` (src/lib.rs:718-725): the
position of a socket along a range given its index and layout direction. -/
def range_scalar (index : ℕ) (range : Range) (direction : Direction) : Scalar :=
  match direction with
  | .Forwards => range.start + PAD + (index : Scalar) * SOCKET_PADDING
  | .Backwards => range.stop - PAD - (index : Scalar) * SOCKET_PADDING

/-- Rust `socket_point` from `Edge::straight_line` (src/lib.rs:728-735): the
position of a socket given its index, rect and socket layout. -/
def socket_point (index : ℕ) (rect : Rect) (layout : SocketLayout) : Point :=
  match layout.side with
  | .Left => (rect.x.start, range_scalar index rect.y layout.direction)
  | .Right => (rect.x.stop, range_scalar index rect.y layout.direction)
  | .Bottom => (range_scalar index rect.x layout.direction, rect.y.start)
  | .Top => (range_scalar index rect.x layout.direction, rect.y.stop)

/-- Rust `NodeSocket` from `src/lib.rs`. -/
structure NodeSocket (NI : Type) where
  id : NI
  socket_index : ℕ
deriving DecidableEq

/-- Rust `NodeEvent` from `src/lib.rs`.  `Dragged`'s two points are the Rust
fields `from` and `to` (`from` is a Lean keyword). -/
inductive NodeEvent (NI : Type)
  | Remove (id : NI)
  | Dragged (node_id : NI) (src : Point) (dst : Point)
deriving DecidableEq

/-- Rust `EdgeEvent` from `src/lib.rs`. -/
inductive EdgeEvent (NI : Type)
  | AddStart (socket : NodeSocket NI)
  | Add (start : NodeSocket NI) (stop : NodeSocket NI)
  | Cancelled (socket : NodeSocket NI)
  | Remove (start : NodeSocket NI) (stop : NodeSocket NI)
deriving DecidableEq

/-- Rust `Event` from `src/lib.rs`. -/
inductive Event (NI : Type)
  | Node (e : NodeEvent NI)
  | Edge (e : EdgeEvent NI)
deriving DecidableEq

/-- Rust `NodeInner` from `src/lib.rs`: per-node retained data (the resolved
position). -/
structure NodeInner where
  point : Point
deriving DecidableEq

/-- Rust `conrod::utils::IterDiff`, specialised to lists: the result of
comparing the retained sequence against the fresh iterator. -/
inductive IterDiff (α : Type)
  | FirstMismatch (i : ℕ) (mismatch : List α)
  | Longer (remaining : List α)
  | Shorter (total : ℕ)
deriving DecidableEq

/-- Walk of `conrod::utils::iter_diff` (external dependency of
`src/lib.rs`): `i` is the enumeration index, the first list the remaining
retained elements, the second the remaining fresh elements.  On mismatch the
fresh iterator is returned re-chained with the mismatching element, exactly
as `iter::once(b_elem).chain(b)` does. -/
def iterDiffAux {α : Type} [DecidableEq α] (i : ℕ) :
    List α → List α → Option (IterDiff α)
  | [], [] => none
  | [], b_elem :: bs => some (.Longer (b_elem :: bs))
  | _ :: _, [] => some (.Shorter i)
  | a_elem :: as_, b_elem :: bs =>
    if a_elem = b_elem then iterDiffAux (i + 1) as_ bs
    else some (.FirstMismatch i (b_elem :: bs))

/-- Rust `conrod::utils::iter_diff(a, b)`. -/
def iter_diff {α : Type} [DecidableEq α] (a b : List α) : Option (IterDiff α) :=
  iterDiffAux 0 a b

/-- The diff-application `match` in `Graph::update` (src/lib.rs:866-897),
applied identically to `node_ids` and to `edges`: truncate is `List.take`,
extend is `++`. -/
def apply_iter_diff {α : Type} [DecidableEq α] (retained fresh : List α) : List α :=
  match iter_diff retained fresh with
  | some (.FirstMismatch i mismatch) => retained.take i ++ mismatch
  | some (.Longer remaining) => retained ++ remaining
  | some (.Shorter total) => retained.take total
  | none => retained

/-- Rust `TypeWidgetIds` from `src/lib.rs`: the per-type list of previously
issued widget ids and the cursor for the next one to hand out. -/
structure TypeWidgetIds where
  next_index : ℕ
  widget_ids : List ℕ
deriving DecidableEq

/-- Rust `TypeWidgetIds::next_id` (src/lib.rs:167-177).  The generator is a `ℕ`
counter; the loop pushes freshly generated ids until the cursor position is
populated, then returns the id there and advances the cursor.  Returns
`(id, new pool state, new generator state)`. -/
def TypeWidgetIds.next_id (t : TypeWidgetIds) (g : ℕ) : ℕ × TypeWidgetIds × ℕ :=
  match h : t.widget_ids[t.next_index]? with
  | some id => (id, { t with next_index := t.next_index + 1 }, g)
  | none => TypeWidgetIds.next_id { t with widget_ids := t.widget_ids ++ [g] } (g + 1)
termination_by t.next_index + 1 - t.widget_ids.length
decreasing_by
  simp only [List.getElem?_eq_none_iff] at h
  simp only [List.length_append, List.length_cons, List.length_nil]
  omega

/-- The map `TypeId → TypeWidgetIds` inside `WidgetIdMap`, modelled as a
total function whose default value is `TypeWidgetIds::default()`
(`next_index = 0`, empty list), matching
`entry(type_id).or_insert_with(TypeWidgetIds::default)`. -/
abbrev TypeWidgetIdMap := ℕ → TypeWidgetIds

/-- The empty pool: every type maps to `TypeWidgetIds::default()`. -/
def emptyTypeWidgetIdMap : TypeWidgetIdMap := fun _ => ⟨0, []⟩

/-- Functional update of the per-type pool map at one type id. -/
def updateTW (m : TypeWidgetIdMap) (ty : ℕ) (v : TypeWidgetIds) : TypeWidgetIdMap :=
  fun t => if t = ty then v else m t

/-- Rust `WidgetIdMap::reset_indices` (src/lib.rs:204-208) restricted to the
per-type pool map: sets every type's cursor to `0`, leaving the id lists
untouched. -/
def reset_type_indices (m : TypeWidgetIdMap) : TypeWidgetIdMap :=
  fun t => { m t with next_index := 0 }

/-- A sequence of pool requests, one per element of the type-id list, in
order — the pool half of `next_id_for_node` / `next_id_for_edge`
(src/lib.rs:220-243).  Returns the issued ids in request order together
with the final pool map and generator state. -/
def runRequests : TypeWidgetIdMap → ℕ → List ℕ → List ℕ × (TypeWidgetIdMap × ℕ)
  | m, g, [] => ([], m, g)
  | m, g, ty :: tys =>
    let r := (m ty).next_id g
    let rest := runRequests (updateTW m ty r.2.1) r.2.2 tys
    (r.1 :: rest.1, rest.2)

/-- One frame of pool activity: `reset_indices` at the start of
`Graph::update`, then the frame's requests in order. -/
def runFrame (m : TypeWidgetIdMap) (g : ℕ) (tys : List ℕ) : TypeWidgetIdMap × ℕ :=
  (runRequests (reset_type_indices m) g tys).2

/-- A sequence of frames of pool activity. -/
def runFrames : TypeWidgetIdMap → ℕ → List (List ℕ) → TypeWidgetIdMap × ℕ
  | m, g, [] => (m, g)
  | m, g, tys :: rest => runFrames (runFrame m g tys).1 (runFrame m g tys).2 rest

/-- Rust `WidgetIdMap` from `src/lib.rs`: the per-type pool plus the
per-frame `node id → widget id` mapping. -/
structure WidgetIdMap (NI : Type) where
  type_widget_ids : TypeWidgetIdMap
  node_widget_ids : NI → Option ℕ

/-- Rust `WidgetIdMap::reset_indices` (src/lib.rs:204-208). -/
def WidgetIdMap.reset_indices {NI : Type} (m : WidgetIdMap NI) : WidgetIdMap NI :=
  { m with type_widget_ids := reset_type_indices m.type_widget_ids }

/-- Rust `WidgetIdMap::clear_node_mappings` (src/lib.rs:212-214). -/
def WidgetIdMap.clear_node_mappings {NI : Type} (m : WidgetIdMap NI) : WidgetIdMap NI :=
  { m with node_widget_ids := fun _ => none }

/-- Rust `WidgetIdMap::next_id_for_node` (src/lib.rs:220-229): draw the next id
from the pool for the content type `ty` and record the node mapping. -/
def WidgetIdMap.next_id_for_node {NI : Type} [DecidableEq NI] (m : WidgetIdMap NI)
    (ty : ℕ) (node_id : NI) (g : ℕ) : ℕ × WidgetIdMap NI × ℕ :=
  let r := (m.type_widget_ids ty).next_id g
  (r.1,
    { type_widget_ids := updateTW m.type_widget_ids ty r.2.1
      node_widget_ids := fun n => if n = node_id then some r.1 else m.node_widget_ids n },
    r.2.2)

/-- Rust `WidgetIdMap::next_id_for_edge` (src/lib.rs:235-243): draw the
next id from the pool for the content type `ty`; unlike the node variant it
records no node mapping. -/
def WidgetIdMap.next_id_for_edge {NI : Type} (m : WidgetIdMap NI)
    (ty : ℕ) (g : ℕ) : ℕ × WidgetIdMap NI × ℕ :=
  let r := (m.type_widget_ids ty).next_id g
  (r.1, { m with type_widget_ids := updateTW m.type_widget_ids ty r.2.1 }, r.2.2)

/-- Rust `Shared` from `src/lib.rs`: the state shared between the `Graph`
widget's retained `State` and the returned `Session`. -/
structure Shared (NI : Type) where
  events : List (Event NI)
  nodes : NI → Option NodeInner
  node_ids : List NI
  edges : List (NodeSocket NI × NodeSocket NI)
  widget_id_map : WidgetIdMap NI

/-- The `Shared` value built by `Graph::init_state` (src/lib.rs:838-851):
everything empty. -/
def init_shared (NI : Type) : Shared NI :=
  { events := []
    nodes := fun _ => none
    node_ids := []
    edges := []
    widget_id_map := { type_widget_ids := emptyTypeWidgetIdMap, node_widget_ids := fun _ => none } }

/-- The fold in `Graph::update` (src/lib.rs:912-915) accumulating the
left-button drag deltas reported by the host for one widget id. -/
def dragTotal (ds : List (Scalar × Scalar)) : Scalar × Scalar :=
  ds.foldl (fun acc d => (acc.1 + d.1, acc.2 + d.2)) (0, 0)

/-- The body of the per-node loop in `Graph::update` (src/lib.rs:901-931):
resolve one node's position from the layout baseline and the accumulated
drag delta on its previous-frame widget id, producing the (zero or one)
events pushed for that node.  `layout` is the caller's `Layout` map,
`node_widget_ids` the previous frame's `node id → widget id` mapping, and
`drags` the host's per-widget-id list of left-button drag deltas. -/
def resolve_node {NI : Type} (layout : NI → Option Point)
    (node_widget_ids : NI → Option ℕ) (drags : ℕ → List (Scalar × Scalar))
    (node_id : NI) : Point × List (Event NI) :=
  let point := (layout node_id).getD (0, 0)
  match node_widget_ids node_id with
  | none => (point, [])
  | some widget_id =>
    let d := dragTotal (drags widget_id)
    if d.1 = 0 ∧ d.2 = 0 then (point, [])
    else
      let dst := (point.1 + d.1, point.2 + d.2)
      (dst, [Event.Node (NodeEvent.Dragged node_id point dst)])

/-- The per-node loop of `Graph::update` (src/lib.rs:900-932): for each id
in order, resolve its position via `resolve_node`, insert it into the
(`clear`ed) `nodes` map and push its events onto the back of the event
queue. -/
def fill_nodes {NI : Type} [DecidableEq NI] (layout : NI → Option Point)
    (node_widget_ids : NI → Option ℕ) (drags : ℕ → List (Scalar × Scalar)) :
    List NI → (NI → Option NodeInner) → List (Event NI) →
    (NI → Option NodeInner) × List (Event NI)
  | [], nodes, events => (nodes, events)
  | node_id :: rest, nodes, events =>
    let r := resolve_node layout node_widget_ids drags node_id
    fill_nodes layout node_widget_ids drags rest
      (fun n => if n = node_id then some { point := r.1 } else nodes n)
      (events ++ r.2)

/-- Rust `Graph::update` (src/lib.rs:857-954), restricted to its effect on the
`Shared` state: reset the pool cursors, diff `node_ids` and `edges` against
the fresh iterators, rebuild `nodes` from scratch (pushing drag events),
and clear the node→widget mappings for the coming instantiation stage.
`fresh_nodes`/`fresh_edges` are the caller's iterators, `layout` the
caller's `Layout`, `drags` the host's accumulated left-drag deltas by
widget id. -/
def Graph.update {NI : Type} [DecidableEq NI] (s : Shared NI)
    (fresh_nodes : List NI) (fresh_edges : List (NodeSocket NI × NodeSocket NI))
    (layout : NI → Option Point) (drags : ℕ → List (Scalar × Scalar)) : Shared NI :=
  let wim := s.widget_id_map.reset_indices
  let node_ids := apply_iter_diff s.node_ids fresh_nodes
  let edges := apply_iter_diff s.edges fresh_edges
  let r := fill_nodes layout wim.node_widget_ids drags node_ids (fun _ => none) s.events
  { events := r.2
    nodes := r.1
    node_ids := node_ids
    edges := edges
    widget_id_map := wim.clear_node_mappings }

/-- Rust `Events::next` (src/lib.rs:510-514): pop the front of the shared event
queue. -/
def Events.next {NI : Type} (s : Shared NI) : Option (Event NI) × Shared NI :=
  match s.events with
  | [] => (none, s)
  | e :: rest => (some e, { s with events := rest })

/-- Driving the `Events` iterator to exhaustion: the list of yielded
events in yield order, together with the state left behind. -/
def Events.drain {NI : Type} (s : Shared NI) : List (Event NI) × Shared NI :=
  match h : Events.next s with
  | (none, s') => ([], s')
  | (some e, s') =>
    let r := Events.drain s'
    (e :: r.1, r.2)
termination_by s.events.length
decreasing_by
  unfold Events.next at h
  cases hev : s.events with
  | nil => simp [hev] at h
  | cons x xs => simp [hev] at h; simp [← h.2, hev]

/-- Rust `node_rect` from `Edge::straight_line` (src/lib.rs:707-715): the
bounding rectangle for the node with the given id — the host rectangle of
its mapped widget id when available, else a zero-size rectangle at the
node's stored point (or the origin when the node is unknown).  `rect_of`
is the host's `ui.rect_of` query. -/
def node_rect {NI : Type} (node_widget_ids : NI → Option ℕ)
    (nodes : NI → Option NodeInner) (rect_of : ℕ → Option Rect)
    (node_id : NI) : Rect :=
  match (node_widget_ids node_id).bind rect_of with
  | some r => r
  | none => Rect.from_xy_dim (((nodes node_id).map NodeInner.point).getD (0, 0)) (0, 0)

/-- The endpoint computation of `Edge::straight_line` (src/lib.rs:702-749):
the `(start_xy, end_xy)` pair for an edge, computed from the two node
rectangles and the session's socket layouts (output layout at the start
socket, input layout at the end socket). -/
def straight_line_points {NI : Type} (node_widget_ids : NI → Option ℕ)
    (nodes : NI → Option NodeInner) (rect_of : ℕ → Option Rect)
    (socket_layouts : SocketLayouts) (start stop : NodeSocket NI) : Point × Point :=
  let start_rect := node_rect node_widget_ids nodes rect_of start.id
  let end_rect := node_rect node_widget_ids nodes rect_of stop.id
  (socket_point start.socket_index start_rect socket_layouts.output,
   socket_point stop.socket_index end_rect socket_layouts.input)

/-- Holds exactly on `Event::Node` events that carry the given node id. -/
def isNodeEventFor {NI : Type} [DecidableEq NI] (node_id : NI) : Event NI → Bool
  | .Node (.Dragged n _ _) => decide (n = node_id)
  | .Node (.Remove n) => decide (n = node_id)
  | .Edge _ => false

/-- Holds exactly on `Event::Node(NodeEvent::Dragged { .. })` events. -/
def isDraggedEvent {NI : Type} : Event NI → Bool
  | .Node (.Dragged _ _ _) => true
  | _ => false

/-- The states of the `Shared` record reachable through the engine: the
initial state, a `Graph::update` reconciliation pass with arbitrary host
inputs, a Nodes-stage widget-id assignment (`NodeWidget::widget_id`,
src/lib.rs:630-642, which calls `next_id_for_node` and populates
`node_widget_ids` for the next frame's drag detection), an Edges-stage
widget-id request (`EdgeWidget::widget_id`, src/lib.rs:767-778, calling
`next_id_for_edge`), or one `Events::next` pop. -/
inductive Reachable {NI : Type} [DecidableEq NI] : Shared NI → Prop
  | init : Reachable (init_shared NI)
  | update {s} (fresh_nodes fresh_edges layout drags) : Reachable s →
      Reachable (Graph.update s fresh_nodes fresh_edges layout drags)
  | node_widget {s} (ty : ℕ) (node_id : NI) (g : ℕ) : Reachable s →
      Reachable { s with
        widget_id_map := (s.widget_id_map.next_id_for_node ty node_id g).2.1 }
  | edge_widget {s} (ty g : ℕ) : Reachable s →
      Reachable { s with
        widget_id_map := (s.widget_id_map.next_id_for_edge ty g).2.1 }
  | pop {s} : Reachable s → Reachable (Events.next s).2

/-- Proof-side view of the diff-application `match`: apply an already
computed `IterDiff` outcome to the retained sequence. -/
def applyDiffResult {α : Type} (retained : List α) : Option (IterDiff α) → List α
  | some (.FirstMismatch i mismatch) => retained.take i ++ mismatch
  | some (.Longer remaining) => retained ++ remaining
  | some (.Shorter total) => retained.take total
  | none => retained

/-- Proof-side accumulator: the events pushed by the per-node loop of
`Graph::update` for the given ids, in loop order. -/
def node_events {NI : Type} (layout : NI → Option Point)
    (node_widget_ids : NI → Option ℕ) (drags : ℕ → List (Scalar × Scalar)) :
    List NI → List (Event NI)
  | [] => []
  | n :: rest =>
    (resolve_node layout node_widget_ids drags n).2
      ++ node_events layout node_widget_ids drags rest

/-- Pool invariant maintained by `TypeWidgetIds::next_id`: every type's
cursor is at most the length of its issued-id list. -/
def TWInv (m : TypeWidgetIdMap) : Prop :=
  ∀ t, (m t).next_index ≤ (m t).widget_ids.length

/-- A concrete retained state used for evaluating the embedding at one
input: node 0 carries widget id 42 from the previous frame. -/
def exShared : Shared ℕ :=
  { events := []
    nodes := fun _ => none
    node_ids := []
    edges := []
    widget_id_map :=
      { type_widget_ids := emptyTypeWidgetIdMap
        node_widget_ids := fun n => if n = 0 then some 42 else none } }

/-- A concrete layout: node 0 at `(1, 2)`. -/
def exLayout : ℕ → Option Point := fun n => if n = 0 then some (1, 2) else none

/-- Concrete host drag input: widget 42 was dragged by `(3, 4)`. -/
def exDrags : ℕ → List (Scalar × Scalar) := fun w => if w = 42 then [(3, 4)] else []

/-- Concrete host drag input for the staged scenario: widget 100 (the id
the Nodes stage assigns to node 0 below) was dragged by `(3, 4)`. -/
def exDrags2 : ℕ → List (Scalar × Scalar) := fun w => if w = 100 then [(3, 4)] else []

/-- Staged scenario, frame 1: the first reconciliation pass over node 0
from the initial state (no drags possible yet — no widget ids exist). -/
def exS1 : Shared ℕ :=
  Graph.update (init_shared ℕ) [0] [] (fun _ => none) (fun _ => [])

/-- Staged scenario, Nodes stage of frame 1: node 0's widget requests its
display id (content type 7, generator at 100), populating
`node_widget_ids` with `0 ↦ 100`. -/
def exS2 : Shared ℕ :=
  { exS1 with widget_id_map := (exS1.widget_id_map.next_id_for_node 7 0 100).2.1 }

/-- Staged scenario, frame 2: reconciliation again over node 0, now with a
mapped widget id and a nonzero drag delta, so an event is enqueued. -/
def exS3 : Shared ℕ := Graph.update exS2 [0] [] exLayout exDrags2

-- ======================================================================
-- Helper lemmas
-- ======================================================================

theorem apply_iter_diff_eq {α : Type} [DecidableEq α] (a b : List α) :
    apply_iter_diff a b = applyDiffResult a (iter_diff a b) := by
  unfold apply_iter_diff applyDiffResult
  cases h : iter_diff a b with
  | none => rfl
  | some d => cases d <;> rfl

theorem applyDiffResult_aux {α : Type} [DecidableEq α] :
    ∀ (a b p : List α),
      applyDiffResult (p ++ a) (iterDiffAux p.length a b) = p ++ b := by
  intro a
  induction a with
  | nil =>
    intro b p
    cases b <;> simp [iterDiffAux, applyDiffResult]
  | cons y as_ ih =>
    intro b p
    cases b with
    | nil =>
      simp [iterDiffAux, applyDiffResult, List.take_left p (y :: as_)]
    | cons x bs =>
      by_cases hyx : y = x
      · subst hyx
        have h := ih bs (p ++ [y])
        simp only [List.length_append, List.length_cons, List.length_nil,
          List.append_assoc, List.singleton_append] at h
        simpa [iterDiffAux] using h
      · have ht : (p ++ y :: as_).take p.length = p := List.take_left p (y :: as_)
        simp [iterDiffAux, hyx, applyDiffResult, ht]

theorem events_drain_eq {NI : Type} :
    ∀ (l : List (Event NI)) (s : Shared NI), s.events = l →
      Events.drain s = (l, { s with events := [] }) := by
  intro l
  induction l with
  | nil =>
    intro s hs
    have hnext : Events.next s = (none, s) := by
      unfold Events.next; simp [hs]
    unfold Events.drain
    split
    next s' heq =>
      rw [hnext] at heq
      injection heq with h1 h2
      subst h2
      obtain ⟨s0, n0, ni0, ed0, w0⟩ := s
      simp only [Shared.mk.injEq] at hs ⊢
      simp [hs]
    next e' s' heq =>
      rw [hnext] at heq
      exact absurd heq (by simp)
  | cons e rest ih =>
    intro s hs
    have hnext : Events.next s = (some e, { s with events := rest }) := by
      unfold Events.next; simp [hs]
    unfold Events.drain
    split
    next s' heq =>
      rw [hnext] at heq
      exact absurd heq (by simp)
    next e' s' heq =>
      rw [hnext] at heq
      injection heq with h1 h2
      injection h1 with h1
      subst h1 h2
      rw [ih { s with events := rest } rfl]

-- ======================================================================
-- Claim theorems
-- ======================================================================

/-- C2: for every retained sequence A and new sequence B (applied
identically to `node_ids` and to `edges`), after the per-frame diff of
`Graph::update` the retained sequence equals B — covering the identical,
pure-extension, pure-truncation and first-mismatch
(`A[0..i] ++ B[i..] = B`) cases of the claim at once. -/
theorem diff_retained_equals_fresh {α : Type} [DecidableEq α] (a b : List α) :
    apply_iter_diff a b = b := by
  have h := applyDiffResult_aux a b []
  simpa [apply_iter_diff_eq, iter_diff] using h

/-- C7: the `Events` iterator yields every queued event exactly once in
FIFO order, leaves the queue empty, and both further calls and a freshly
obtained iterator on the drained state yield nothing. -/
theorem events_iterator_drains_fifo {NI : Type} (s : Shared NI) :
    (Events.drain s).1 = s.events
    ∧ (Events.drain s).2.events = []
    ∧ Events.next (Events.drain s).2 = (none, (Events.drain s).2)
    ∧ (Events.drain (Events.drain s).2).1 = [] := by
  have h := events_drain_eq s.events s rfl
  have h2 := events_drain_eq [] { s with events := ([] : List (Event NI)) } rfl
  refine ⟨by simp [h], by simp [h], ?_, ?_⟩
  · simp [h, Events.next]
  · simp [h, h2]

/-- C3: for every rectangle `R` and index `i`, the
`{side: Right, direction: Backwards}` socket anchor lies at
`x = R.right, y = R.top - pad - i * spacing` (pad `= 5`, spacing `= 10`),
in particular at `R.top - pad` for index 0 and `R.top - pad - spacing` for
index 1; and for every direction the anchors are strictly monotonic along
the walking axis in index order. -/
theorem socket_anchor_right_backwards (R : Rect) (i : ℕ) :
    socket_point i R ⟨SocketSide.Right, Direction.Backwards⟩
        = (R.x.stop, R.y.stop - 5 - (i : Scalar) * 10)
    ∧ socket_point 0 R ⟨SocketSide.Right, Direction.Backwards⟩ = (R.x.stop, R.y.stop - 5)
    ∧ socket_point 1 R ⟨SocketSide.Right, Direction.Backwards⟩
        = (R.x.stop, R.y.stop - 5 - 10)
    ∧ ∀ (r : Range) (j k : ℕ), j < k →
        range_scalar j r Direction.Forwards < range_scalar k r Direction.Forwards
        ∧ range_scalar k r Direction.Backwards < range_scalar j r Direction.Backwards := by
  refine ⟨?_, ?_, ?_, ?_⟩
  · simp [socket_point, range_scalar, PAD, SOCKET_PADDING]
    norm_num
  · simp [socket_point, range_scalar, PAD, SOCKET_PADDING]
    norm_num
  · simp [socket_point, range_scalar, PAD, SOCKET_PADDING]
    norm_num
  · intro r j k hjk
    have hq : (j : Scalar) < (k : Scalar) := by exact_mod_cast hjk
    constructor
    · simp only [range_scalar]
      have := mul_lt_mul_of_pos_right hq
        (by norm_num [SOCKET_PADDING] : (0 : Scalar) < SOCKET_PADDING)
      linarith
    · simp only [range_scalar]
      have := mul_lt_mul_of_pos_right hq
        (by norm_num [SOCKET_PADDING] : (0 : Scalar) < SOCKET_PADDING)
      linarith

/-- Witness for C3 at a concrete rectangle and indices 0 < 1. -/
theorem socket_anchor_right_backwards_witness :
    0 < 1
    ∧ (range_scalar 0 ⟨0, 100⟩ Direction.Forwards < range_scalar 1 ⟨0, 100⟩ Direction.Forwards
        ∧ range_scalar 1 ⟨0, 100⟩ Direction.Backwards < range_scalar 0 ⟨0, 100⟩ Direction.Backwards) :=
  ⟨by decide,
    (socket_anchor_right_backwards ⟨⟨0, 1⟩, ⟨0, 100⟩⟩ 0).2.2.2 ⟨0, 100⟩ 0 1 (by decide)⟩

/-- C4 counterexample: the claim says that with a degenerate (zero-area)
fallback rectangle the socket anchor computed in `Edge::straight_line`
equals the node's raw position in both coordinates.  At the concrete input
below (node 0 stored at `(0, 0)`, no widget id mapped, default
`Right/Backwards` output layout, socket index 0) the start anchor is
`(0, -5)`, which differs from the raw position `(0, 0)`. -/
theorem degenerate_socket_anchor_counterexample :
    (straight_line_points (fun _ : ℕ => (none : Option ℕ))
        (fun _ => some { point := ((0 : Scalar), (0 : Scalar)) }) (fun _ => none)
        ⟨⟨SocketSide.Left, Direction.Backwards⟩, ⟨SocketSide.Right, Direction.Backwards⟩⟩
        ⟨0, 0⟩ ⟨1, 0⟩).1 = ((0 : Scalar), (-5 : Scalar))
    ∧ ((0 : Scalar), (-5 : Scalar)) ≠ ((0 : Scalar), (0 : Scalar)) := by
  constructor
  · simp [straight_line_points, node_rect, socket_point, range_scalar,
      Rect.from_xy_dim, Range.from_pos_and_len, PAD, SOCKET_PADDING]
    norm_num
  · intro h
    rw [Prod.mk.injEq] at h
    exact absurd h.2 (by norm_num)

/-- C4 amended: for a degenerate rectangle (the zero-size fallback rect
centred at the node's raw position `p`), the socket anchor keeps the raw
coordinate on the axis of the chosen side and offsets the walking-axis
coordinate by `pad + i * spacing` in the layout's direction — it equals the
raw position only up to that walking-axis offset. -/
theorem degenerate_socket_anchor_offset (p : Point) (i : ℕ) (layout : SocketLayout) :
    socket_point i (Rect.from_xy_dim p (0, 0)) layout =
      match layout.side, layout.direction with
      | .Left, .Forwards | .Right, .Forwards =>
          (p.1, p.2 + (5 + (i : Scalar) * 10))
      | .Left, .Backwards | .Right, .Backwards =>
          (p.1, p.2 - (5 + (i : Scalar) * 10))
      | .Bottom, .Forwards | .Top, .Forwards =>
          (p.1 + (5 + (i : Scalar) * 10), p.2)
      | .Bottom, .Backwards | .Top, .Backwards =>
          (p.1 - (5 + (i : Scalar) * 10), p.2) := by
  obtain ⟨side, direction⟩ := layout
  cases side <;> cases direction <;>
    · simp [socket_point, range_scalar, Rect.from_xy_dim, Range.from_pos_and_len,
        PAD, SOCKET_PADDING, Prod.ext_iff]
      ring_nf

theorem next_id_read {t : TypeWidgetIds} {g id : ℕ}
    (h : t.widget_ids[t.next_index]? = some id) :
    t.next_id g = (id, { t with next_index := t.next_index + 1 }, g) := by
  rw [TypeWidgetIds.next_id]
  split
  next id2 heq =>
    rw [h] at heq
    injection heq with h3
    subst h3
    rfl
  next heq =>
    rw [h] at heq
    exact absurd heq (by simp)

theorem next_id_alloc {t : TypeWidgetIds} {g : ℕ}
    (h : t.next_index = t.widget_ids.length) :
    t.next_id g = (g, ⟨t.next_index + 1, t.widget_ids ++ [g]⟩, g + 1) := by
  obtain ⟨idx, l⟩ := t
  simp only at h
  subst h
  have h1 : l[l.length]? = none := List.getElem?_eq_none (Nat.le_refl _)
  have h2 : (l ++ [g])[l.length]? = some g := List.getElem?_concat_length l g
  rw [TypeWidgetIds.next_id]
  split
  next id heq =>
    rw [h1] at heq
    exact absurd heq (by simp)
  next heq =>
    rw [TypeWidgetIds.next_id]
    split
    next id heq2 =>
      rw [h2] at heq2
      injection heq2 with h3
      subst h3
      rfl
    next heq2 =>
      rw [h2] at heq2
      exact absurd heq2 (by simp)

theorem runRequests_cons (m : TypeWidgetIdMap) (g ty : ℕ) (tys : List ℕ) :
    runRequests m g (ty :: tys)
      = (((m ty).next_id g).1 ::
          (runRequests (updateTW m ty ((m ty).next_id g).2.1) ((m ty).next_id g).2.2 tys).1,
         (runRequests (updateTW m ty ((m ty).next_id g).2.1) ((m ty).next_id g).2.2 tys).2) := by
  simp only [runRequests]

theorem runRequests_spec : ∀ (tys : List ℕ) (m : TypeWidgetIdMap) (g : ℕ), TWInv m →
    TWInv (runRequests m g tys).2.1
    ∧ (∀ t, ∃ ext, ((runRequests m g tys).2.1 t).widget_ids = (m t).widget_ids ++ ext)
    ∧ (∀ t, ((runRequests m g tys).2.1 t).next_index = (m t).next_index + tys.count t)
    ∧ (∀ t, ((runRequests m g tys).2.1 t).widget_ids.length
          = max (m t).widget_ids.length ((m t).next_index + tys.count t)) := by
  intro tys
  induction tys with
  | nil =>
    intro m g hm
    refine ⟨hm, fun t => ⟨[], by simp [runRequests]⟩, fun t => by simp [runRequests],
      fun t => ?_⟩
    simp only [runRequests, List.count_nil, Nat.add_zero]
    exact (Nat.max_eq_left (hm t)).symm
  | cons ty tys ih =>
    intro m g hm
    rcases Nat.lt_or_ge (m ty).next_index (m ty).widget_ids.length with hlt | hge
    · -- the cursor points at an existing id: pure read
      have hid : (m ty).widget_ids[(m ty).next_index]?
          = some ((m ty).widget_ids[(m ty).next_index]) := List.getElem?_eq_getElem hlt
      have hstep := runRequests_cons m g ty tys
      rw [next_id_read (g := g) hid] at hstep
      have hm1 : TWInv (updateTW m ty { m ty with next_index := (m ty).next_index + 1 }) := by
        intro t
        by_cases h : t = ty
        · subst h; simp only [updateTW, if_pos rfl]; exact hlt
        · simp only [updateTW, if_neg h]; exact hm t
      obtain ⟨i1, i2, i3, i4⟩ :=
        ih (updateTW m ty { m ty with next_index := (m ty).next_index + 1 }) g hm1
      have hproj : (runRequests m g (ty :: tys)).2
          = (runRequests (updateTW m ty { m ty with next_index := (m ty).next_index + 1 })
              g tys).2 := by
        rw [hstep]
      refine ⟨by rw [hproj]; exact i1, ?_, ?_, ?_⟩
      · intro t
        obtain ⟨ext, he⟩ := i2 t
        refine ⟨ext, ?_⟩
        rw [hproj, he]
        by_cases h : t = ty
        · subst h; simp [updateTW]
        · simp [updateTW, h]
      · intro t
        rw [hproj, i3 t, List.count_cons]
        by_cases h : t = ty
        · subst h; simp [updateTW]; omega
        · simp [updateTW, h, Ne.symm h]
      · intro t
        rw [hproj, i4 t, List.count_cons]
        by_cases h : t = ty
        · subst h; simp [updateTW]; omega
        · simp [updateTW, h, Ne.symm h]
    · -- the cursor is at the end of the list: allocate one fresh id
      have heq : (m ty).next_index = (m ty).widget_ids.length :=
        Nat.le_antisymm (hm ty) hge
      have hstep := runRequests_cons m g ty tys
      rw [next_id_alloc (g := g) heq] at hstep
      have hm1 : TWInv (updateTW m ty
          ⟨(m ty).next_index + 1, (m ty).widget_ids ++ [g]⟩) := by
        intro t
        by_cases h : t = ty
        · subst h; simp only [updateTW, if_pos rfl, List.length_append]; simp; omega
        · simp only [updateTW, if_neg h]; exact hm t
      obtain ⟨i1, i2, i3, i4⟩ :=
        ih (updateTW m ty ⟨(m ty).next_index + 1, (m ty).widget_ids ++ [g]⟩) (g + 1) hm1
      have hproj : (runRequests m g (ty :: tys)).2
          = (runRequests (updateTW m ty ⟨(m ty).next_index + 1, (m ty).widget_ids ++ [g]⟩)
              (g + 1) tys).2 := by
        rw [hstep]
      refine ⟨by rw [hproj]; exact i1, ?_, ?_, ?_⟩
      · intro t
        obtain ⟨ext, he⟩ := i2 t
        rw [hproj, he]
        by_cases h : t = ty
        · subst h
          refine ⟨[g] ++ ext, ?_⟩
          simp [updateTW]
        · refine ⟨ext, ?_⟩
          simp [updateTW, h]
      · intro t
        rw [hproj, i3 t, List.count_cons]
        by_cases h : t = ty
        · subst h; simp [updateTW]; omega
        · simp [updateTW, h, Ne.symm h]
      · intro t
        rw [hproj, i4 t, List.count_cons]
        by_cases h : t = ty
        · subst h; simp [updateTW]; omega
        · simp [updateTW, h, Ne.symm h]

theorem runRequests_stable : ∀ (tys : List ℕ) (m : TypeWidgetIdMap) (g : ℕ)
    (m2 : TypeWidgetIdMap) (g2 : ℕ), TWInv m →
    (∀ t, (m2 t).widget_ids = ((runRequests m g tys).2.1 t).widget_ids) →
    (∀ t, (m2 t).next_index = (m t).next_index) →
    (runRequests m2 g2 tys).1 = (runRequests m g tys).1
    ∧ ∀ t, ((runRequests m2 g2 tys).2.1 t).widget_ids
        = ((runRequests m g tys).2.1 t).widget_ids := by
  intro tys
  induction tys with
  | nil =>
    intro m g m2 g2 hm hL hI
    exact ⟨by simp [runRequests], fun t => hL t⟩
  | cons ty tys ih =>
    intro m g m2 g2 hm hL hI
    rcases Nat.lt_or_ge (m ty).next_index (m ty).widget_ids.length with hlt | hge
    · -- the first run reads an existing id; so does the second
      have hid : (m ty).widget_ids[(m ty).next_index]?
          = some ((m ty).widget_ids[(m ty).next_index]) := List.getElem?_eq_getElem hlt
      have hstep := runRequests_cons m g ty tys
      rw [next_id_read (g := g) hid] at hstep
      have hm1 : TWInv (updateTW m ty { m ty with next_index := (m ty).next_index + 1 }) := by
        intro t
        by_cases h : t = ty
        · subst h; simp only [updateTW, if_pos rfl]; exact hlt
        · simp only [updateTW, if_neg h]; exact hm t
      obtain ⟨_, sp2, _, _⟩ :=
        runRequests_spec tys (updateTW m ty { m ty with next_index := (m ty).next_index + 1 })
          g hm1
      obtain ⟨ext, hext⟩ := sp2 ty
      have hLty : (m2 ty).widget_ids = (m ty).widget_ids ++ ext := by
        have h0 := hL ty
        rw [hstep] at h0
        rw [h0, hext]
        simp [updateTW]
      have hid2 : (m2 ty).widget_ids[(m2 ty).next_index]?
          = some ((m ty).widget_ids[(m ty).next_index]) := by
        rw [hI ty, hLty, List.getElem?_append_left hlt]
        exact hid
      have hstep2 := runRequests_cons m2 g2 ty tys
      rw [next_id_read (g := g2) hid2] at hstep2
      have hL1 : ∀ t, (updateTW m2 ty { m2 ty with next_index := (m2 ty).next_index + 1 }
            t).widget_ids
          = ((runRequests (updateTW m ty { m ty with next_index := (m ty).next_index + 1 })
              g tys).2.1 t).widget_ids := by
        intro t
        have h0 := hL t
        rw [hstep] at h0
        by_cases h : t = ty
        · subst h; simp only [updateTW, if_pos rfl]; exact h0
        · simp only [updateTW, if_neg h]; exact h0
      have hI1 : ∀ t, (updateTW m2 ty { m2 ty with next_index := (m2 ty).next_index + 1 }
            t).next_index
          = (updateTW m ty { m ty with next_index := (m ty).next_index + 1 } t).next_index := by
        intro t
        by_cases h : t = ty
        · subst h; simp [updateTW, hI t]
        · simp only [updateTW, if_neg h]; exact hI t
      obtain ⟨ihout, ihlists⟩ :=
        ih (updateTW m ty { m ty with next_index := (m ty).next_index + 1 }) g
          (updateTW m2 ty { m2 ty with next_index := (m2 ty).next_index + 1 }) g2
          hm1 hL1 hI1
      constructor
      · rw [hstep, hstep2]
        simp only [ihout]
      · intro t
        rw [hstep, hstep2]
        exact ihlists t
    · -- the first run allocates `g`; the second reads it back
      have heq : (m ty).next_index = (m ty).widget_ids.length :=
        Nat.le_antisymm (hm ty) hge
      have hstep := runRequests_cons m g ty tys
      rw [next_id_alloc (g := g) heq] at hstep
      have hm1 : TWInv (updateTW m ty
          ⟨(m ty).next_index + 1, (m ty).widget_ids ++ [g]⟩) := by
        intro t
        by_cases h : t = ty
        · subst h; simp only [updateTW, if_pos rfl, List.length_append]; simp; omega
        · simp only [updateTW, if_neg h]; exact hm t
      obtain ⟨_, sp2, _, _⟩ :=
        runRequests_spec tys (updateTW m ty ⟨(m ty).next_index + 1, (m ty).widget_ids ++ [g]⟩)
          (g + 1) hm1
      obtain ⟨ext, hext⟩ := sp2 ty
      have hLty : (m2 ty).widget_ids = ((m ty).widget_ids ++ [g]) ++ ext := by
        have h0 := hL ty
        rw [hstep] at h0
        rw [h0, hext]
        simp [updateTW]
      have hid2 : (m2 ty).widget_ids[(m2 ty).next_index]? = some g := by
        rw [hI ty, hLty]
        have h1 : (m ty).next_index < ((m ty).widget_ids ++ [g]).length := by
          simp only [List.length_append, List.length_cons, List.length_nil]
          omega
        rw [List.getElem?_append_left h1, heq]
        exact List.getElem?_concat_length _ _
      have hstep2 := runRequests_cons m2 g2 ty tys
      rw [next_id_read (g := g2) hid2] at hstep2
      have hL1 : ∀ t, (updateTW m2 ty { m2 ty with next_index := (m2 ty).next_index + 1 }
            t).widget_ids
          = ((runRequests (updateTW m ty ⟨(m ty).next_index + 1, (m ty).widget_ids ++ [g]⟩)
              (g + 1) tys).2.1 t).widget_ids := by
        intro t
        have h0 := hL t
        rw [hstep] at h0
        by_cases h : t = ty
        · subst h; simp only [updateTW, if_pos rfl]; exact h0
        · simp only [updateTW, if_neg h]; exact h0
      have hI1 : ∀ t, (updateTW m2 ty { m2 ty with next_index := (m2 ty).next_index + 1 }
            t).next_index
          = (updateTW m ty ⟨(m ty).next_index + 1, (m ty).widget_ids ++ [g]⟩ t).next_index := by
        intro t
        by_cases h : t = ty
        · subst h; simp [updateTW, hI t]
        · simp only [updateTW, if_neg h]; exact hI t
      obtain ⟨ihout, ihlists⟩ :=
        ih (updateTW m ty ⟨(m ty).next_index + 1, (m ty).widget_ids ++ [g]⟩) (g + 1)
          (updateTW m2 ty { m2 ty with next_index := (m2 ty).next_index + 1 }) g2
          hm1 hL1 hI1
      constructor
      · rw [hstep, hstep2]
        simp only [ihout]
      · intro t
        rw [hstep, hstep2]
        exact ihlists t

theorem runRequests_replicate : ∀ (n : ℕ) (m : TypeWidgetIdMap) (g t : ℕ), TWInv m →
    (runRequests m g (List.replicate n t)).1
      = (((runRequests m g (List.replicate n t)).2.1 t).widget_ids.drop
          (m t).next_index).take n := by
  intro n
  induction n with
  | zero => intro m g t hm; simp [runRequests]
  | succ n ih =>
    intro m g t hm
    rw [List.replicate_succ]
    rcases Nat.lt_or_ge (m t).next_index (m t).widget_ids.length with hlt | hge
    · -- read step
      have hid : (m t).widget_ids[(m t).next_index]?
          = some ((m t).widget_ids[(m t).next_index]) := List.getElem?_eq_getElem hlt
      have hstep := runRequests_cons m g t (List.replicate n t)
      rw [next_id_read (g := g) hid] at hstep
      have hm1 : TWInv (updateTW m t { m t with next_index := (m t).next_index + 1 }) := by
        intro u
        by_cases h : u = t
        · subst h; simp only [updateTW, if_pos rfl]; exact hlt
        · simp only [updateTW, if_neg h]; exact hm u
      obtain ⟨_, sp2, _, _⟩ :=
        runRequests_spec (List.replicate n t)
          (updateTW m t { m t with next_index := (m t).next_index + 1 }) g hm1
      obtain ⟨ext, hext⟩ := sp2 t
      have hfin : ((runRequests (updateTW m t { m t with next_index := (m t).next_index + 1 })
            g (List.replicate n t)).2.1 t).widget_ids = (m t).widget_ids ++ ext := by
        rw [hext]; simp [updateTW]
      have hlen : (m t).next_index
          < ((runRequests (updateTW m t { m t with next_index := (m t).next_index + 1 })
              g (List.replicate n t)).2.1 t).widget_ids.length := by
        rw [hfin, List.length_append]; omega
      rw [hstep]
      simp only
      rw [List.drop_eq_getElem_cons hlen, List.take_succ_cons]
      have hv : ((runRequests (updateTW m t { m t with next_index := (m t).next_index + 1 })
            g (List.replicate n t)).2.1 t).widget_ids[(m t).next_index]?
          = some ((m t).widget_ids[(m t).next_index]) := by
        rw [hfin, List.getElem?_append_left hlt]; exact hid
      rw [List.getElem?_eq_getElem hlen] at hv
      injection hv with hv
      have hrest := ih (updateTW m t { m t with next_index := (m t).next_index + 1 }) g t hm1
      rw [hrest]
      simp [updateTW, hv]
    · -- allocation step
      have heq : (m t).next_index = (m t).widget_ids.length := Nat.le_antisymm (hm t) hge
      have hstep := runRequests_cons m g t (List.replicate n t)
      rw [next_id_alloc (g := g) heq] at hstep
      have hm1 : TWInv (updateTW m t ⟨(m t).next_index + 1, (m t).widget_ids ++ [g]⟩) := by
        intro u
        by_cases h : u = t
        · subst h; simp only [updateTW, if_pos rfl, List.length_append]; simp; omega
        · simp only [updateTW, if_neg h]; exact hm u
      obtain ⟨_, sp2, _, _⟩ :=
        runRequests_spec (List.replicate n t)
          (updateTW m t ⟨(m t).next_index + 1, (m t).widget_ids ++ [g]⟩) (g + 1) hm1
      obtain ⟨ext, hext⟩ := sp2 t
      have hfin : ((runRequests (updateTW m t ⟨(m t).next_index + 1, (m t).widget_ids ++ [g]⟩)
            (g + 1) (List.replicate n t)).2.1 t).widget_ids
          = ((m t).widget_ids ++ [g]) ++ ext := by
        rw [hext]; simp [updateTW]
      have hlen : (m t).next_index
          < ((runRequests (updateTW m t ⟨(m t).next_index + 1, (m t).widget_ids ++ [g]⟩)
              (g + 1) (List.replicate n t)).2.1 t).widget_ids.length := by
        rw [hfin]
        simp only [List.length_append, List.length_cons, List.length_nil]
        omega
      rw [hstep]
      simp only
      rw [List.drop_eq_getElem_cons hlen, List.take_succ_cons]
      have hv : ((runRequests (updateTW m t ⟨(m t).next_index + 1, (m t).widget_ids ++ [g]⟩)
            (g + 1) (List.replicate n t)).2.1 t).widget_ids[(m t).next_index]? = some g := by
        rw [hfin]
        have h1 : (m t).next_index < ((m t).widget_ids ++ [g]).length := by
          simp only [List.length_append, List.length_cons, List.length_nil]; omega
        rw [List.getElem?_append_left h1, heq]
        exact List.getElem?_concat_length _ _
      rw [List.getElem?_eq_getElem hlen] at hv
      injection hv with hv
      have hrest := ih (updateTW m t ⟨(m t).next_index + 1, (m t).widget_ids ++ [g]⟩)
        (g + 1) t hm1
      rw [hrest]
      simp [updateTW, hv]

theorem runFrame_length (m : TypeWidgetIdMap) (g : ℕ) (tys : List ℕ) (t : ℕ) :
    ((runFrame m g tys).1 t).widget_ids.length
      = max ((m t).widget_ids.length) (tys.count t) := by
  have hinv : TWInv (reset_type_indices m) := fun u => Nat.zero_le _
  obtain ⟨_, _, _, i4⟩ := runRequests_spec tys (reset_type_indices m) g hinv
  unfold runFrame
  rw [i4 t]
  simp [reset_type_indices]

theorem runFrames_length : ∀ (frames : List (List ℕ)) (m : TypeWidgetIdMap) (g t : ℕ),
    ((runFrames m g frames).1 t).widget_ids.length
      = (frames.map fun tys => tys.count t).foldl max ((m t).widget_ids.length) := by
  intro frames
  induction frames with
  | nil => intro m g t; simp [runFrames]
  | cons tys rest ih =>
    intro m g t
    show ((runFrames (runFrame m g tys).1 (runFrame m g tys).2 rest).1 t).widget_ids.length = _
    rw [ih, runFrame_length]
    simp [List.foldl_cons]

theorem foldl_max_le {K : ℕ} : ∀ (l : List ℕ) (a : ℕ), a ≤ K → (∀ c ∈ l, c ≤ K) →
    l.foldl max a ≤ K := by
  intro l
  induction l with
  | nil => intro a ha _; simpa using ha
  | cons c l ih =>
    intro a ha hl
    simp only [List.foldl_cons]
    exact ih (max a c) (max_le ha (hl c (List.mem_cons_self c l))) fun d hd => hl d (List.mem_cons_of_mem _ hd)

theorem le_foldl_max : ∀ (l : List ℕ) (a : ℕ), a ≤ l.foldl max a := by
  intro l
  induction l with
  | nil => intro a; simp
  | cons c l ih =>
    intro a
    simp only [List.foldl_cons]
    exact le_trans (Nat.le_max_left a c) (ih (max a c))

theorem mem_le_foldl_max : ∀ (l : List ℕ) (a c : ℕ), c ∈ l → c ≤ l.foldl max a := by
  intro l
  induction l with
  | nil => intro a c hc; simp at hc
  | cons d l ih =>
    intro a c hc
    simp only [List.foldl_cons]
    rcases List.mem_cons.mp hc with h | h
    · subst h
      exact le_trans (Nat.le_max_right a c) (le_foldl_max l (max a c))
    · exact ih (max a d) c h

/-- C5: with `reset_indices` called at the start of each frame, replaying
the same ordered sequence of content-widget type requests in two
consecutive frames yields the identical identifier at every position
(first conjunct); `reset_indices` sets every type's cursor to zero while
leaving every type's issued-identifier list unchanged (second conjunct);
and within a frame the Nth request for a given type yields the Nth
identifier of that type's ever-allocated list (third conjunct). -/
theorem identifier_stability (m : TypeWidgetIdMap) (g g2 : ℕ) (tys : List ℕ) :
    (runRequests (reset_type_indices (runRequests (reset_type_indices m) g tys).2.1)
        g2 tys).1
      = (runRequests (reset_type_indices m) g tys).1
    ∧ (∀ t, (reset_type_indices m t).next_index = 0
        ∧ (reset_type_indices m t).widget_ids = (m t).widget_ids)
    ∧ (∀ t n, (runRequests (reset_type_indices m) g (List.replicate n t)).1
        = ((runRequests (reset_type_indices m) g (List.replicate n t)).2.1
            t).widget_ids.take n) := by
  have hinv : TWInv (reset_type_indices m) := fun t => Nat.zero_le _
  refine ⟨?_, fun t => ⟨rfl, rfl⟩, ?_⟩
  · have hL : ∀ t,
        (reset_type_indices (runRequests (reset_type_indices m) g tys).2.1 t).widget_ids
          = ((runRequests (reset_type_indices m) g tys).2.1 t).widget_ids := fun t => rfl
    have hI : ∀ t,
        (reset_type_indices (runRequests (reset_type_indices m) g tys).2.1 t).next_index
          = (reset_type_indices m t).next_index := fun t => rfl
    exact (runRequests_stable tys (reset_type_indices m) g _ g2 hinv hL hI).1
  · intro t n
    have h := runRequests_replicate n (reset_type_indices m) g t hinv
    simpa [reset_type_indices] using h

/-- C6: starting from the empty pool, if no frame ever requests more than
`K` identifiers of content type `t`, the type's ever-allocated identifier
count stays at most `K`; once some frame has requested exactly `K`, the
count equals `K` and stays `K` under any further frames respecting the
bound; and the count never shrinks across frames (identifiers are never
released). -/
theorem identifier_growth_bounded (g t K : ℕ) (frames : List (List ℕ))
    (hle : ∀ tys ∈ frames, tys.count t ≤ K) :
    (((runFrames emptyTypeWidgetIdMap g frames).1 t).widget_ids.length ≤ K)
    ∧ ((∃ tys ∈ frames, tys.count t = K) →
        ∀ more : List (List ℕ), (∀ tys ∈ more, tys.count t ≤ K) →
          ((runFrames emptyTypeWidgetIdMap g (frames ++ more)).1 t).widget_ids.length = K)
    ∧ (∀ (m : TypeWidgetIdMap) (g2 : ℕ) (fs : List (List ℕ)),
        (m t).widget_ids.length ≤ ((runFrames m g2 fs).1 t).widget_ids.length) := by
  refine ⟨?_, ?_, ?_⟩
  · rw [runFrames_length]
    refine foldl_max_le _ _ (by simp [emptyTypeWidgetIdMap]) ?_
    intro c hc
    obtain ⟨tys, htys, hcc⟩ := List.mem_map.mp hc
    exact hcc ▸ hle tys htys
  · rintro ⟨tys0, htys0, hK⟩ more hmore
    rw [runFrames_length]
    apply Nat.le_antisymm
    · refine foldl_max_le _ _ (by simp [emptyTypeWidgetIdMap]) ?_
      intro c hc
      obtain ⟨tys, htys, hcc⟩ := List.mem_map.mp hc
      rcases List.mem_append.mp htys with h | h
      · exact hcc ▸ hle tys h
      · exact hcc ▸ hmore tys h
    · have hmem : tys0.count t ∈ ((frames ++ more).map fun tys => tys.count t) :=
        List.mem_map.mpr ⟨tys0, List.mem_append.mpr (Or.inl htys0), rfl⟩
      have := mem_le_foldl_max _ ((emptyTypeWidgetIdMap t).widget_ids.length) _ hmem
      omega
  · intro m g2 fs
    rw [runFrames_length]
    exact le_foldl_max _ _

/-- Witness for C6: two frames requesting 2 then 1 identifiers of type 0,
bound `K = 2`. -/
theorem identifier_growth_bounded_witness :
    (∀ tys ∈ [[0, 0], [0]], tys.count 0 ≤ 2)
    ∧ ((runFrames emptyTypeWidgetIdMap 0 [[0, 0], [0]]).1 0).widget_ids.length ≤ 2 :=
  ⟨by decide, (identifier_growth_bounded 0 0 2 [[0, 0], [0]] (by decide)).1⟩

theorem resolve_node_events {NI : Type} (layout : NI → Option Point)
    (nwi : NI → Option ℕ) (drags : ℕ → List (Scalar × Scalar)) (n : NI) :
    (resolve_node layout nwi drags n).2 = []
    ∨ ∃ p q, (resolve_node layout nwi drags n).2 = [Event.Node (NodeEvent.Dragged n p q)] := by
  unfold resolve_node
  cases hw : nwi n with
  | none => left; rfl
  | some w =>
    by_cases hd : (dragTotal (drags w)).1 = 0 ∧ (dragTotal (drags w)).2 = 0
    · left; simp [hd]
    · right
      exact ⟨(layout n).getD (0, 0),
        (((layout n).getD (0, 0)).1 + (dragTotal (drags w)).1,
         ((layout n).getD (0, 0)).2 + (dragTotal (drags w)).2), by simp [hd]⟩

theorem fill_nodes_events {NI : Type} [DecidableEq NI] (layout : NI → Option Point)
    (nwi : NI → Option ℕ) (drags : ℕ → List (Scalar × Scalar)) :
    ∀ (ids : List NI) (nodes : NI → Option NodeInner) (evs : List (Event NI)),
      (fill_nodes layout nwi drags ids nodes evs).2
        = evs ++ node_events layout nwi drags ids := by
  intro ids
  induction ids with
  | nil => intro nodes evs; simp [fill_nodes, node_events]
  | cons n rest ih =>
    intro nodes evs
    simp only [fill_nodes, node_events]
    rw [ih]
    simp [List.append_assoc]

theorem fill_nodes_not_mem {NI : Type} [DecidableEq NI] (layout : NI → Option Point)
    (nwi : NI → Option ℕ) (drags : ℕ → List (Scalar × Scalar)) :
    ∀ (ids : List NI) (nodes : NI → Option NodeInner) (evs : List (Event NI)) (n : NI),
      n ∉ ids → (fill_nodes layout nwi drags ids nodes evs).1 n = nodes n := by
  intro ids
  induction ids with
  | nil => intro nodes evs n _; rfl
  | cons m rest ih =>
    intro nodes evs n hn
    have hnm : n ≠ m := fun h => hn (h ▸ List.mem_cons_self m rest)
    have hnr : n ∉ rest := fun h => hn (List.mem_cons_of_mem m h)
    simp only [fill_nodes]
    rw [ih _ _ n hnr]
    simp [hnm]

theorem fill_nodes_mem {NI : Type} [DecidableEq NI] (layout : NI → Option Point)
    (nwi : NI → Option ℕ) (drags : ℕ → List (Scalar × Scalar)) :
    ∀ (ids : List NI) (nodes : NI → Option NodeInner) (evs : List (Event NI)) (n : NI),
      ids.Nodup → n ∈ ids →
      (fill_nodes layout nwi drags ids nodes evs).1 n
        = some { point := (resolve_node layout nwi drags n).1 } := by
  intro ids
  induction ids with
  | nil => intro nodes evs n _ h; simp at h
  | cons m rest ih =>
    intro nodes evs n hnodup hmem
    rcases List.mem_cons.mp hmem with h | h
    · subst h
      have hnr : n ∉ rest := (List.nodup_cons.mp hnodup).1
      simp only [fill_nodes]
      rw [fill_nodes_not_mem _ _ _ _ _ _ n hnr]
      simp
    · exact ih _ _ n (List.nodup_cons.mp hnodup).2 h

theorem fill_nodes_isSome {NI : Type} [DecidableEq NI] (layout : NI → Option Point)
    (nwi : NI → Option ℕ) (drags : ℕ → List (Scalar × Scalar)) :
    ∀ (ids : List NI) (nodes : NI → Option NodeInner) (evs : List (Event NI)) (n : NI),
      ((fill_nodes layout nwi drags ids nodes evs).1 n).isSome = true
        ↔ (n ∈ ids ∨ (nodes n).isSome = true) := by
  intro ids
  induction ids with
  | nil => intro nodes evs n; simp [fill_nodes]
  | cons m rest ih =>
    intro nodes evs n
    simp only [fill_nodes]
    rw [ih]
    by_cases h : n = m
    · subst h; simp
    · simp [h, List.mem_cons]

theorem node_events_filter_not_mem {NI : Type} [DecidableEq NI] (layout : NI → Option Point)
    (nwi : NI → Option ℕ) (drags : ℕ → List (Scalar × Scalar)) :
    ∀ (ids : List NI) (n : NI), n ∉ ids →
      (node_events layout nwi drags ids).filter (isNodeEventFor n) = [] := by
  intro ids
  induction ids with
  | nil => intro n _; rfl
  | cons m rest ih =>
    intro n hn
    have hnm : n ≠ m := fun h => hn (h ▸ List.mem_cons_self m rest)
    have hnr : n ∉ rest := fun h => hn (List.mem_cons_of_mem m h)
    simp only [node_events, List.filter_append]
    rw [ih n hnr]
    rcases resolve_node_events layout nwi drags m with h | ⟨p, q, h⟩
    · simp [h]
    · simp [h, isNodeEventFor, Ne.symm hnm]

theorem node_events_filter_mem {NI : Type} [DecidableEq NI] (layout : NI → Option Point)
    (nwi : NI → Option ℕ) (drags : ℕ → List (Scalar × Scalar)) :
    ∀ (ids : List NI) (n : NI), ids.Nodup → n ∈ ids →
      (node_events layout nwi drags ids).filter (isNodeEventFor n)
        = (resolve_node layout nwi drags n).2 := by
  intro ids
  induction ids with
  | nil => intro n _ h; simp at h
  | cons m rest ih =>
    intro n hnodup hmem
    simp only [node_events, List.filter_append]
    rcases List.mem_cons.mp hmem with h | h
    · subst h
      have hnr : n ∉ rest := (List.nodup_cons.mp hnodup).1
      rw [node_events_filter_not_mem _ _ _ _ n hnr]
      rcases resolve_node_events layout nwi drags n with h2 | ⟨p, q, h2⟩
      · simp [h2]
      · simp [h2, isNodeEventFor]
    · have hnm : n ≠ m := by
        intro he
        subst he
        exact (List.nodup_cons.mp hnodup).1 h
      rw [ih n (List.nodup_cons.mp hnodup).2 h]
      rcases resolve_node_events layout nwi drags m with h2 | ⟨p, q, h2⟩
      · simp [h2]
      · simp [h2, isNodeEventFor, Ne.symm hnm]

theorem node_events_all_dragged {NI : Type} [DecidableEq NI] (layout : NI → Option Point)
    (nwi : NI → Option ℕ) (drags : ℕ → List (Scalar × Scalar)) :
    ∀ (ids : List NI), ∀ e ∈ node_events layout nwi drags ids,
      isDraggedEvent e = true := by
  intro ids
  induction ids with
  | nil => intro e he; simp [node_events] at he
  | cons m rest ih =>
    intro e he
    simp only [node_events, List.mem_append] at he
    rcases he with he | he
    · rcases resolve_node_events layout nwi drags m with h2 | ⟨p, q, h2⟩
      · rw [h2] at he; simp at he
      · rw [h2] at he
        simp only [List.mem_singleton] at he
        subst he
        rfl
    · exact ih e he

theorem node_events_countP {NI : Type} [DecidableEq NI] (layout : NI → Option Point)
    (nwi : NI → Option ℕ) (drags : ℕ → List (Scalar × Scalar))
    (ids : List NI) (n : NI) (hnodup : ids.Nodup) :
    (node_events layout nwi drags ids).countP (isNodeEventFor n) ≤ 1 := by
  rw [List.countP_eq_length_filter]
  by_cases h : n ∈ ids
  · rw [node_events_filter_mem _ _ _ _ n hnodup h]
    rcases resolve_node_events layout nwi drags n with h2 | ⟨p, q, h2⟩ <;> simp [h2]
  · rw [node_events_filter_not_mem _ _ _ _ n h]
    simp

theorem update_events_eq {NI : Type} [DecidableEq NI] (s : Shared NI)
    (fn : List NI) (fe : List (NodeSocket NI × NodeSocket NI))
    (layout : NI → Option Point) (drags : ℕ → List (Scalar × Scalar)) :
    (Graph.update s fn fe layout drags).events
      = s.events ++ node_events layout s.widget_id_map.node_widget_ids drags
          (apply_iter_diff s.node_ids fn) := by
  unfold Graph.update
  simp only
  rw [fill_nodes_events]
  simp [WidgetIdMap.reset_indices]

theorem update_nodes_eq {NI : Type} [DecidableEq NI] (s : Shared NI)
    (fn : List NI) (fe : List (NodeSocket NI × NodeSocket NI))
    (layout : NI → Option Point) (drags : ℕ → List (Scalar × Scalar)) :
    (Graph.update s fn fe layout drags).nodes
      = (fill_nodes layout s.widget_id_map.node_widget_ids drags
          (apply_iter_diff s.node_ids fn) (fun _ => none) s.events).1 := rfl

theorem update_node_ids_eq {NI : Type} [DecidableEq NI] (s : Shared NI)
    (fn : List NI) (fe : List (NodeSocket NI × NodeSocket NI))
    (layout : NI → Option Point) (drags : ℕ → List (Scalar × Scalar)) :
    (Graph.update s fn fe layout drags).node_ids = apply_iter_diff s.node_ids fn := rfl

/-- C1: for every node in the frame's `node_ids`, `Graph::update` leaves
the previously queued events untouched (first conjunct) and: when the
node's previous-frame display identifier `w` is mapped and the accumulated
left-drag delta on it is nonzero, it pushes exactly one
`Event::Node(Dragged { node_id, from, to })` with `from` the Layout
baseline (`[0,0]` if absent) and `to = from + delta`, and records `to` as
the node's resolved position; with a zero delta, or with no identifier
mapped, it pushes no event for that node and records the baseline. -/
theorem drag_round_trip {NI : Type} [DecidableEq NI]
    (s : Shared NI) (fn : List NI) (fe : List (NodeSocket NI × NodeSocket NI))
    (layout : NI → Option Point) (drags : ℕ → List (Scalar × Scalar)) (node_id : NI)
    (hmem : node_id ∈ (Graph.update s fn fe layout drags).node_ids)
    (hnodup : (Graph.update s fn fe layout drags).node_ids.Nodup) :
    ((Graph.update s fn fe layout drags).events.take s.events.length = s.events)
    ∧ (∀ w, s.widget_id_map.node_widget_ids node_id = some w →
        (¬((dragTotal (drags w)).1 = 0 ∧ (dragTotal (drags w)).2 = 0) →
          ((Graph.update s fn fe layout drags).events.drop s.events.length).filter
              (isNodeEventFor node_id)
            = [Event.Node (NodeEvent.Dragged node_id ((layout node_id).getD (0, 0))
                (((layout node_id).getD (0, 0)).1 + (dragTotal (drags w)).1,
                 ((layout node_id).getD (0, 0)).2 + (dragTotal (drags w)).2))]
          ∧ (Graph.update s fn fe layout drags).nodes node_id
            = some { point := (((layout node_id).getD (0, 0)).1 + (dragTotal (drags w)).1,
                              ((layout node_id).getD (0, 0)).2 + (dragTotal (drags w)).2) })
        ∧ (((dragTotal (drags w)).1 = 0 ∧ (dragTotal (drags w)).2 = 0) →
          ((Graph.update s fn fe layout drags).events.drop s.events.length).filter
              (isNodeEventFor node_id) = []
          ∧ (Graph.update s fn fe layout drags).nodes node_id
            = some { point := (layout node_id).getD (0, 0) }))
    ∧ (s.widget_id_map.node_widget_ids node_id = none →
        ((Graph.update s fn fe layout drags).events.drop s.events.length).filter
            (isNodeEventFor node_id) = []
        ∧ (Graph.update s fn fe layout drags).nodes node_id
          = some { point := (layout node_id).getD (0, 0) }) := by
  rw [update_node_ids_eq] at hmem hnodup
  have hev := update_events_eq s fn fe layout drags
  have htake : (Graph.update s fn fe layout drags).events.take s.events.length
      = s.events := by
    rw [hev]; exact List.take_left _ _
  have hdrop : (Graph.update s fn fe layout drags).events.drop s.events.length
      = node_events layout s.widget_id_map.node_widget_ids drags
          (apply_iter_diff s.node_ids fn) := by
    rw [hev]; exact List.drop_left _ _
  have hfilter := node_events_filter_mem layout s.widget_id_map.node_widget_ids drags
    (apply_iter_diff s.node_ids fn) node_id hnodup hmem
  have hnodes : (Graph.update s fn fe layout drags).nodes node_id
      = some { point := (resolve_node layout s.widget_id_map.node_widget_ids drags
          node_id).1 } := by
    rw [update_nodes_eq]
    exact fill_nodes_mem _ _ _ _ _ _ node_id hnodup hmem
  refine ⟨htake, ?_, ?_⟩
  · intro w hw
    constructor
    · intro hnz
      constructor
      · rw [hdrop, hfilter]
        simp [resolve_node, hw, hnz]
      · rw [hnodes]
        simp [resolve_node, hw, hnz]
    · intro hz
      constructor
      · rw [hdrop, hfilter]
        simp [resolve_node, hw, hz]
      · rw [hnodes]
        simp [resolve_node, hw, hz]
  · intro hw
    constructor
    · rw [hdrop, hfilter]
      simp [resolve_node, hw]
    · rw [hnodes]
      simp [resolve_node, hw]

/-- Witness for C1: node 0 at baseline `(1, 2)`, widget id 42 dragged by
`(3, 4)`: exactly one `Dragged` event and resolved position `(4, 6)`. -/
theorem drag_round_trip_witness :
    (0 ∈ (Graph.update exShared [0] [] exLayout exDrags).node_ids)
    ∧ (Graph.update exShared [0] [] exLayout exDrags).node_ids.Nodup
    ∧ ¬((dragTotal (exDrags 42)).1 = 0 ∧ (dragTotal (exDrags 42)).2 = 0)
    ∧ ((Graph.update exShared [0] [] exLayout exDrags).events.drop
          exShared.events.length).filter (isNodeEventFor 0)
        = [Event.Node (NodeEvent.Dragged 0 ((exLayout 0).getD (0, 0))
            (((exLayout 0).getD (0, 0)).1 + (dragTotal (exDrags 42)).1,
             ((exLayout 0).getD (0, 0)).2 + (dragTotal (exDrags 42)).2))]
    ∧ (Graph.update exShared [0] [] exLayout exDrags).nodes 0
        = some { point := (((exLayout 0).getD (0, 0)).1 + (dragTotal (exDrags 42)).1,
                          ((exLayout 0).getD (0, 0)).2 + (dragTotal (exDrags 42)).2) } := by
  have hnz : ¬((dragTotal (exDrags 42)).1 = 0 ∧ (dragTotal (exDrags 42)).2 = 0) := by
    simp [exDrags, dragTotal]
  have h := drag_round_trip exShared [0] [] exLayout exDrags 0 (by decide) (by decide)
  obtain ⟨h1, h2, h3⟩ := h
  have h4 := (h2 42 rfl).1 hnz
  exact ⟨by decide, by decide, hnz, h4.1, h4.2⟩

/-- C8: after every `Graph::update` pass, the key set of the `nodes` map
is exactly the element set of the frame's `node_ids`. -/
theorem nodes_keys_match_node_ids {NI : Type} [DecidableEq NI] (s : Shared NI)
    (fn : List NI) (fe : List (NodeSocket NI × NodeSocket NI))
    (layout : NI → Option Point) (drags : ℕ → List (Scalar × Scalar)) (n : NI) :
    ((Graph.update s fn fe layout drags).nodes n).isSome = true
      ↔ n ∈ (Graph.update s fn fe layout drags).node_ids := by
  rw [update_nodes_eq, update_node_ids_eq, fill_nodes_isSome]
  simp

/-- C9: edge endpoint resolution is total and never errors: both endpoints
are always computed from `node_rect`, and in every failure mode — no
display identifier mapped, a mapped identifier with no host rectangle, or
a node id absent from `nodes` — `node_rect` falls back to the zero-size
rectangle at the node's stored point (or the origin for an unknown
node). -/
theorem edge_resolution_total {NI : Type} (nwi : NI → Option ℕ)
    (nodes : NI → Option NodeInner) (rect_of : ℕ → Option Rect)
    (layouts : SocketLayouts) (a b : NodeSocket NI) :
    straight_line_points nwi nodes rect_of layouts a b
      = (socket_point a.socket_index (node_rect nwi nodes rect_of a.id) layouts.output,
         socket_point b.socket_index (node_rect nwi nodes rect_of b.id) layouts.input)
    ∧ (∀ id, nwi id = none →
        node_rect nwi nodes rect_of id
          = Rect.from_xy_dim (((nodes id).map NodeInner.point).getD (0, 0)) (0, 0))
    ∧ (∀ id w, nwi id = some w → rect_of w = none →
        node_rect nwi nodes rect_of id
          = Rect.from_xy_dim (((nodes id).map NodeInner.point).getD (0, 0)) (0, 0))
    ∧ (∀ id, nwi id = none → nodes id = none →
        node_rect nwi nodes rect_of id = Rect.from_xy_dim (0, 0) (0, 0)) := by
  refine ⟨rfl, ?_, ?_, ?_⟩
  · intro id h
    unfold node_rect
    simp [h]
  · intro id w h hr
    unfold node_rect
    simp [h, hr]
  · intro id h hn
    unfold node_rect
    simp [h, hn]

/-- Witness for C9: an edge socket on a node with no mapped identifier and
no `nodes` record resolves to the zero-size rectangle at the origin. -/
theorem edge_resolution_total_witness :
    ((fun _ : ℕ => (none : Option ℕ)) 0 = none)
    ∧ node_rect (fun _ : ℕ => (none : Option ℕ)) (fun _ => (none : Option NodeInner))
        (fun _ => (none : Option Rect)) 0 = Rect.from_xy_dim (0, 0) (0, 0) :=
  ⟨rfl, (edge_resolution_total (fun _ => none) (fun _ => none) (fun _ => none)
      ⟨⟨SocketSide.Left, Direction.Backwards⟩, ⟨SocketSide.Right, Direction.Backwards⟩⟩
      ⟨0, 0⟩ ⟨0, 0⟩).2.2.2 0 rfl rfl⟩

/-- C10: in every reachable state, every queued event is an
`Event::Node(Dragged { .. })` — reconciliation never enqueues
`NodeEvent::Remove` or any `EdgeEvent` — and one `Graph::update` pass
enqueues at most one `Dragged` event per node id (given each id appears
once in `node_ids`). -/
theorem only_dragged_events {NI : Type} [DecidableEq NI] :
    (∀ s : Shared NI, Reachable s → ∀ e ∈ s.events, isDraggedEvent e = true)
    ∧ (∀ (s : Shared NI) (fn : List NI) (fe : List (NodeSocket NI × NodeSocket NI))
        (layout : NI → Option Point) (drags : ℕ → List (Scalar × Scalar)) (node_id : NI),
        (Graph.update s fn fe layout drags).node_ids.Nodup →
        ((Graph.update s fn fe layout drags).events.drop s.events.length).countP
          (isNodeEventFor node_id) ≤ 1) := by
  constructor
  · intro s hs
    induction hs with
    | init => intro e he; simp [init_shared] at he
    | update fn fe layout drags hr ih =>
      intro e he
      rw [update_events_eq] at he
      rcases List.mem_append.mp he with h | h
      · exact ih e h
      · exact node_events_all_dragged _ _ _ _ e h
    | node_widget ty node_id g hr ih =>
      intro e he
      exact ih e he
    | edge_widget ty g hr ih =>
      intro e he
      exact ih e he
    | pop hr ih =>
      rename_i s2
      intro e he
      unfold Events.next at he
      cases hev : s2.events with
      | nil => simp [hev] at he
      | cons x xs =>
        simp only [hev] at he
        exact ih e (hev ▸ List.mem_cons_of_mem x he)
  · intro s fn fe layout drags node_id hnodup
    rw [update_node_ids_eq] at hnodup
    rw [update_events_eq, List.drop_left]
    exact node_events_countP _ _ _ _ node_id hnodup

/-- Witness for C10, exercising the enqueue path: after frame 1, a
Nodes-stage widget-id assignment for node 0, and frame 2 with a nonzero
drag on that widget, the reachable state `exS3` holds exactly one queued
event — a `Dragged` — as the invariant asserts of its non-empty queue, and
the frame-2 pass enqueued at most one event for node 0. -/
theorem only_dragged_events_witness :
    Reachable exS3
    ∧ exS3.events = [Event.Node (NodeEvent.Dragged 0 (1, 2) (4, 6))]
    ∧ (∀ e ∈ exS3.events, isDraggedEvent e = true)
    ∧ (Graph.update exS2 [0] [] exLayout exDrags2).node_ids.Nodup
    ∧ ((Graph.update exS2 [0] [] exLayout exDrags2).events.drop
        exS2.events.length).countP (isNodeEventFor 0) ≤ 1 := by
  have hreach : Reachable exS3 :=
    Reachable.update [0] [] exLayout exDrags2
      (Reachable.node_widget 7 0 100
        (Reachable.update [0] [] (fun _ => none) (fun _ => []) Reachable.init))
  have hnext100 : TypeWidgetIds.next_id ⟨0, []⟩ 100 = (100, ⟨1, [100]⟩, 101) :=
    next_id_alloc rfl
  have hnwi : exS2.widget_id_map.node_widget_ids 0 = some 100 := by
    show ((exS1.widget_id_map.next_id_for_node 7 0 100).2.1).node_widget_ids 0 = some 100
    unfold WidgetIdMap.next_id_for_node
    have h7 : exS1.widget_id_map.type_widget_ids 7 = ⟨0, []⟩ := rfl
    rw [h7]
    simp [hnext100]
  have hd0 : apply_iter_diff ([] : List ℕ) [0] = [0] := by decide
  have hev1 : exS2.events = [] := by
    show (Graph.update (init_shared ℕ) [0] [] (fun _ => none) (fun _ => [])).events = []
    rw [update_events_eq]
    have h0 : (init_shared ℕ).node_ids = [] := rfl
    rw [h0, hd0]
    simp [init_shared, node_events, resolve_node]
  have hids : apply_iter_diff exS2.node_ids [0] = [0] := by decide
  have hev3 : exS3.events = [Event.Node (NodeEvent.Dragged 0 (1, 2) (4, 6))] := by
    show (Graph.update exS2 [0] [] exLayout exDrags2).events = _
    rw [update_events_eq, hev1, hids, List.nil_append]
    simp [node_events, resolve_node, hnwi, exDrags2, exLayout, dragTotal]
    norm_num
  exact ⟨hreach, hev3, only_dragged_events.1 exS3 hreach, by decide,
    only_dragged_events.2 exS2 [0] [] exLayout exDrags2 0 (by decide)⟩

end ConrodGraph
